import Mathlib

/-!
# LakeSnes front end (`main.c`): pacing loop, audio/video glue and input routing

A shallow embedding of the SDL main loop of `main.c`.

* The emulated machine (`snes_*`) and the host library (`SDL_*`) are external: every call
  the loop makes to them is recorded, in program order, in a trace of `Call` values.
* What the host reports back (pending events, the performance counter, the queued audio
  size, whether the texture lock succeeded) is an explicit input, `Host`.
* The `float` variables `timeAdder`, `wanted` and `seconds` are modelled by exact rational
  numbers: rounding of binary floating point is not part of this model.
* The catch-up `while` loop is modelled with a fuel argument; running out of fuel gives
  `none`. The event loop and the main loop run over the finite lists of host inputs.
-/

namespace LakeSnes

/-! ## Definitions

Host constants are the values of the SDL2 headers `SDL_keycode.h` and `SDL_video.h`. -/

def SDLK_RETURN : Int := 13
def SDLK_a : Int := 97
def SDLK_c : Int := 99
def SDLK_d : Int := 100
def SDLK_e : Int := 101
def SDLK_p : Int := 112
def SDLK_r : Int := 114
def SDLK_s : Int := 115
def SDLK_t : Int := 116
def SDLK_x : Int := 120
def SDLK_z : Int := 122
def SDLK_RIGHT : Int := 1073741903
def SDLK_LEFT : Int := 1073741904
def SDLK_DOWN : Int := 1073741905
def SDLK_UP : Int := 1073741906
def SDLK_RSHIFT : Int := 1073742053

def KMOD_CTRL : Nat := 0x00C0
def KMOD_ALT : Nat := 0x0300
def KMOD_GUI : Nat := 0x0C00

def SDL_WINDOW_FULLSCREEN_DESKTOP : Nat := 0x1001

/-- One call made by the main loop to the machine or to the host library. -/
inductive Call where
  | SDL_PollEvent
  | snes_reset (hard : Bool)
  | SDL_SetWindowFullscreen (flags : Nat)
  | snes_setButtonState (player : Int) (button : Int) (pressed : Bool)
  | SDL_GetPerformanceCounter
  | snes_runFrame
  | snes_setSamples (wantedSamples : Int)
  | SDL_GetQueuedAudioSize
  | SDL_QueueAudio (len : Int)
  | SDL_LockTexture
  | printf_lockFailed
  | snes_setPixels
  | SDL_UnlockTexture
  | SDL_RenderClear
  | SDL_RenderCopy
  | SDL_RenderPresent
  deriving DecidableEq, Repr

/-- An event returned by `SDL_PollEvent`: the fields of `SDL_Event` the loop reads.
`other` stands for every event type the outer `switch` has no case for. -/
inductive Event where
  | keyDown (sym : Int) (mod : Nat)
  | keyUp (sym : Int) (mod : Nat)
  | quit
  | other
  deriving DecidableEq, Repr

/-- What the host reports during one iteration of the main loop: the pending events (in
queue order), the value of the performance counter, and, for the `k`-th pass of the
catch-up loop, the queued audio size and whether the texture lock succeeds. -/
structure Host where
  events : List Event
  curCount : Nat
  queued : Nat → Nat
  lockOk : Nat → Bool

/-- The local variables of `main` that are live across iterations of the main loop. -/
structure Vars where
  loaded : Bool
  running : Bool
  paused : Bool
  turbo : Bool
  fullscreenFlags : Nat
  countFreq : Nat
  lastCount : Nat
  timeAdder : ℚ
  wanted : ℚ
  wantedSamples : Int

/-- The function `handleInput` (lines 177-192): the calls it makes for a key code and a
pressed flag. -/
def handleInput (keyCode : Int) (pressed : Bool) : List Call :=
  if keyCode = SDLK_z then [Call.snes_setButtonState 1 0 pressed]
  else if keyCode = SDLK_a then [Call.snes_setButtonState 1 1 pressed]
  else if keyCode = SDLK_RSHIFT then [Call.snes_setButtonState 1 2 pressed]
  else if keyCode = SDLK_RETURN then [Call.snes_setButtonState 1 3 pressed]
  else if keyCode = SDLK_UP then [Call.snes_setButtonState 1 4 pressed]
  else if keyCode = SDLK_DOWN then [Call.snes_setButtonState 1 5 pressed]
  else if keyCode = SDLK_LEFT then [Call.snes_setButtonState 1 6 pressed]
  else if keyCode = SDLK_RIGHT then [Call.snes_setButtonState 1 7 pressed]
  else if keyCode = SDLK_x then [Call.snes_setButtonState 1 8 pressed]
  else if keyCode = SDLK_s then [Call.snes_setButtonState 1 9 pressed]
  else if keyCode = SDLK_d then [Call.snes_setButtonState 1 10 pressed]
  else if keyCode = SDLK_c then [Call.snes_setButtonState 1 11 pressed]
  else []

/-- The function `playAudio` (lines 158-164). `queued` is the `Uint32` returned by
`SDL_GetQueuedAudioSize`; the `int` on the right of `<=` is converted to `unsigned`. -/
def playAudio (queued : Nat) (wantedSamples : Int) : List Call :=
  [Call.snes_setSamples wantedSamples, Call.SDL_GetQueuedAudioSize] ++
    (if (queued : Int) ≤ (wantedSamples * 4 * 6) % 4294967296 then
      [Call.SDL_QueueAudio (wantedSamples * 4)]
    else [])

/-- The function `renderScreen` (lines 166-175). -/
def renderScreen (lockOk : Bool) : List Call :=
  if !lockOk then [Call.SDL_LockTexture, Call.printf_lockFailed]
  else [Call.SDL_LockTexture, Call.snes_setPixels, Call.SDL_UnlockTexture]

/-- The body of the outer `switch(event.type)` (lines 85-117) for one event. -/
def handleEvent (st : Vars) (e : Event) : Vars × List Call :=
  match e with
  | Event.keyDown sym mod =>
    let r : Vars × List Call :=
      if sym = SDLK_r then (st, [Call.snes_reset false])
      else if sym = SDLK_e then (st, [Call.snes_reset true])
      else if sym = SDLK_p then ({ st with paused := !st.paused }, [])
      else if sym = SDLK_t then ({ st with turbo := true }, [])
      else if sym = SDLK_RETURN then
        if mod &&& KMOD_ALT ≠ 0 then
          let flags := st.fullscreenFlags ^^^ SDL_WINDOW_FULLSCREEN_DESKTOP
          ({ st with fullscreenFlags := flags }, [Call.SDL_SetWindowFullscreen flags])
        else (st, [])
      else (st, [])
    if mod &&& (KMOD_ALT ||| KMOD_CTRL ||| KMOD_GUI) = 0 then
      (r.1, r.2 ++ handleInput sym true)
    else r
  | Event.keyUp sym _ =>
    let st1 : Vars := if sym = SDLK_t then { st with turbo := false } else st
    (st1, handleInput sym false)
  | Event.quit => ({ st with running := false }, [])
  | Event.other => (st, [])

/-- The event loop `while(SDL_PollEvent(&event))` (lines 84-118) on the pending events;
the last `SDL_PollEvent` is the one that returns 0. -/
def pollEvents (st : Vars) : List Event → Vars × List Call
  | [] => (st, [Call.SDL_PollEvent])
  | e :: es =>
    let r := handleEvent st e
    let r2 := pollEvents r.1 es
    (r2.1, Call.SDL_PollEvent :: r.2 ++ r2.2)

/-- One pass of the body of the catch-up loop after `timeAdder -= wanted`
(lines 129-136). -/
def frameBody (loaded paused turbo : Bool) (wantedSamples : Int) (queued : Nat)
    (lockOk : Bool) : List Call :=
  if loaded && !paused then
    (if turbo then [Call.snes_runFrame] else []) ++ [Call.snes_runFrame] ++
      playAudio queued wantedSamples ++ renderScreen lockOk
  else []

/-- The result of the catch-up loop: the accumulator left, the number of passes (due
frames) and the calls made. -/
structure Advance where
  timeAdder : ℚ
  frames : Nat
  calls : List Call
  deriving DecidableEq, Repr

/-- The catch-up loop `while(timeAdder >= wanted - 0.002)` (lines 126-137). `body k` is
the trace of pass number `k`; `k` counts the passes made so far. -/
def catchUp (body : Nat → List Call) (wanted : ℚ) : Nat → ℚ → Nat → Option Advance
  | 0, timeAdder, _ =>
    if timeAdder ≥ wanted - 0.002 then none else some ⟨timeAdder, 0, []⟩
  | fuel + 1, timeAdder, k =>
    if timeAdder ≥ wanted - 0.002 then
      match catchUp body wanted fuel (timeAdder - wanted) (k + 1) with
      | none => none
      | some r => some ⟨r.timeAdder, r.frames + 1, body k ++ r.calls⟩
    else some ⟨timeAdder, 0, []⟩

/-- The clock advance of one iteration (lines 124-137): `timeAdder += seconds`, then the
catch-up loop. -/
def clockAdvance (fuel : Nat) (body : Nat → List Call) (wanted timeAdder seconds : ℚ) :
    Option Advance :=
  catchUp body wanted fuel (timeAdder + seconds) 0

/-- Lines 120-123: `delta = curCount - lastCount` in `uint64_t`, then
`seconds = delta / (float) countFreq`. -/
def elapsedSeconds (countFreq lastCount curCount : Nat) : ℚ :=
  ((((curCount : Int) - (lastCount : Int)) % 18446744073709551616 : Int) : ℚ) /
    (countFreq : ℚ)

/-- Lines 139-141. -/
def present : List Call :=
  [Call.SDL_RenderClear, Call.SDL_RenderCopy, Call.SDL_RenderPresent]

/-- One iteration of `while(running)` (lines 84-141). -/
def mainLoopBody (fuel : Nat) (st : Vars) (h : Host) : Option (Vars × List Call) :=
  let p := pollEvents st h.events
  let st1 := p.1
  let seconds := elapsedSeconds st1.countFreq st1.lastCount h.curCount
  match clockAdvance fuel
      (fun k => frameBody st1.loaded st1.paused st1.turbo st1.wantedSamples
        (h.queued k) (h.lockOk k))
      st1.wanted st1.timeAdder seconds with
  | none => none
  | some r =>
    some ({ st1 with lastCount := h.curCount, timeAdder := r.timeAdder },
      p.2 ++ [Call.SDL_GetPerformanceCounter] ++ r.calls ++ present)

/-- The main loop `while(running)` (lines 83-142) over the host inputs of successive
iterations; it stops when `running` is false or the inputs are used up. -/
def runLoop (fuel : Nat) : Vars → List Host → Option (Vars × List Call)
  | st, [] => some (st, [])
  | st, h :: hs =>
    if st.running then
      match mainLoopBody fuel st h with
      | none => none
      | some r =>
        match runLoop fuel r.1 hs with
        | none => none
        | some r2 => some (r2.1, r.2 ++ r2.2)
    else some (st, [])

/-- Lines 80-81: the frame period and the samples per frame, from `snes->palTiming`. -/
def wanted (palTiming : Bool) : ℚ := 1.0 / (if palTiming then 50.0 else 60.0)

def wantedSamples (palTiming : Bool) : Int := if palTiming then 882 else 735

/-- The variables as initialised before the main loop (lines 65-81). -/
def initVars (loaded palTiming : Bool) (countFreq lastCount : Nat) : Vars :=
  { loaded := loaded, running := true, paused := false, turbo := false,
    fullscreenFlags := 0, countFreq := countFreq, lastCount := lastCount,
    timeAdder := 0.0, wanted := wanted palTiming, wantedSamples := wantedSamples palTiming }

/-- The calls of `n` consecutive passes of the catch-up loop, starting at pass `k`. -/
def framesTrace (body : Nat → List Call) : Nat → Nat → List Call
  | _, 0 => []
  | k, n + 1 => body k ++ framesTrace body (k + 1) n

/-- The number of due frames for an accumulator value `acc` (after `timeAdder += seconds`)
and a frame period `w`. -/
def dueFrames (w acc : ℚ) : Nat := (⌊(acc + 0.002) / w⌋).toNat

/-- The variables no event handler assigns. -/
def sameTiming (a b : Vars) : Prop :=
  a.loaded = b.loaded ∧ a.countFreq = b.countFreq ∧ a.lastCount = b.lastCount ∧
    a.timeAdder = b.timeAdder ∧ a.wanted = b.wanted ∧ a.wantedSamples = b.wantedSamples

instance (a b : Vars) : Decidable (sameTiming a b) := by
  unfold sameTiming
  exact inferInstance

/-- The accumulator of an iteration after `timeAdder += seconds`. -/
def accAfterAdd (st : Vars) (h : Host) : ℚ :=
  st.timeAdder + elapsedSeconds st.countFreq st.lastCount h.curCount

/-- The outcome of one iteration of the main loop, with the number of passes of the
catch-up loop given by `dueFrames`. -/
def iterTotal (st : Vars) (h : Host) : Vars × List Call :=
  let p := pollEvents st h.events
  let n := dueFrames st.wanted (accAfterAdd st h)
  ({ p.1 with lastCount := h.curCount, timeAdder := accAfterAdd st h - n * st.wanted },
    p.2 ++ [Call.SDL_GetPerformanceCounter] ++
      framesTrace (fun k => frameBody p.1.loaded p.1.paused p.1.turbo p.1.wantedSamples
        (h.queued k) (h.lockOk k)) 0 n ++ present)

/-- The outcome of the main loop over the given host inputs. -/
def runTotal : Vars → List Host → Vars × List Call
  | st, [] => (st, [])
  | st, h :: hs =>
    if st.running then
      ((runTotal (iterTotal st h).1 hs).1, (iterTotal st h).2 ++ (runTotal (iterTotal st h).1 hs).2)
    else (st, [])

/-- Fuel that is enough for every catch-up loop of a run. -/
def runFuel : Vars → List Host → Nat
  | _, [] => 0
  | st, h :: hs =>
    max (dueFrames st.wanted (accAfterAdd st h)) (runFuel (iterTotal st h).1 hs)

/-- The sample rate asked of the audio device (`want.freq`, line 45). -/
def wantFreq : Int := 44100

/-- The twelve mapped key codes, in the order of the button indices 0..11. -/
def mappedKeys : List Int :=
  [SDLK_z, SDLK_a, SDLK_RSHIFT, SDLK_RETURN, SDLK_UP, SDLK_DOWN, SDLK_LEFT, SDLK_RIGHT,
    SDLK_x, SDLK_s, SDLK_d, SDLK_c]

/-- Whether a call sets controller button state. -/
def isButtonCall : Call → Bool
  | Call.snes_setButtonState _ _ _ => true
  | _ => false

/-- Whether ctrl, alt or meta is held in a modifier state. -/
def modifierHeld (mod : Nat) : Prop :=
  mod &&& KMOD_CTRL ≠ 0 ∨ mod &&& KMOD_ALT ≠ 0 ∨ mod &&& KMOD_GUI ≠ 0

instance (mod : Nat) : Decidable (modifierHeld mod) := by
  unfold modifierHeld
  exact inferInstance

/-- The calls made by the body of the catch-up loop: the machine step, the audio fill and
submission, the video fill, and the host calls around them. -/
def isFrameCall : Call → Bool
  | Call.snes_runFrame => true
  | Call.snes_setSamples _ => true
  | Call.SDL_GetQueuedAudioSize => true
  | Call.SDL_QueueAudio _ => true
  | Call.SDL_LockTexture => true
  | Call.printf_lockFailed => true
  | Call.snes_setPixels => true
  | Call.SDL_UnlockTexture => true
  | _ => false

/-- The calls an event handler can make. -/
def isEventCall : Call → Bool
  | Call.snes_reset _ => true
  | Call.SDL_SetWindowFullscreen _ => true
  | Call.snes_setButtonState _ _ _ => true
  | _ => false

/-- The gate `loaded && !paused` of the catch-up loop is closed. -/
def gateClosed (st : Vars) : Bool := !st.loaded || st.paused

/-- Whether an event is a press of the pause key. -/
def isPausePress : Event → Bool
  | Event.keyDown sym _ => decide (sym = SDLK_p)
  | _ => false

/-- The time the host reports over successive iterations, in seconds. -/
def totalSeconds (countFreq : Nat) : Nat → List Host → ℚ
  | _, [] => 0
  | lastCount, h :: hs =>
    elapsedSeconds countFreq lastCount h.curCount + totalSeconds countFreq h.curCount hs

/-- The number of due frames over a run of the main loop. -/
def totalFrames : Vars → List Host → Nat
  | _, [] => 0
  | st, h :: hs =>
    if st.running then
      dueFrames st.wanted (accAfterAdd st h) + totalFrames (iterTotal st h).1 hs
    else 0

/-- The condition of an idle or paused interval: no ROM is loaded, or the loop is paused
and no pause key is pressed in any of the iterations. -/
def idleOrPaused (st : Vars) (hosts : List Host) : Prop :=
  st.loaded = false ∨
    (st.paused = true ∧ ∀ h ∈ hosts, ∀ e ∈ h.events, isPausePress e = false)

instance (st : Vars) (hosts : List Host) : Decidable (idleOrPaused st hosts) := by
  unfold idleOrPaused
  exact inferInstance

/-- A loaded machine, running, not paused, turbo off. -/
def steady (st : Vars) : Prop :=
  st.loaded = true ∧ st.running = true ∧ st.paused = false ∧ st.turbo = false

instance (st : Vars) : Decidable (steady st) := by
  unfold steady
  exact inferInstance

/-- The host inputs of one iteration used in the examples: no event, the counter at
`curCount`, an empty audio queue, a texture lock that succeeds. -/
def quietHost (curCount : Nat) : Host :=
  { events := [], curCount := curCount, queued := fun _ => 0, lockOk := fun _ => true }

/-! ## Lemmas -/

theorem catchUp_of_passes (body : Nat → List Call) (w : ℚ) :
    ∀ (n : Nat) (acc : ℚ) (k fuel : Nat), n ≤ fuel →
      (∀ i : Nat, i < n → w - 0.002 ≤ acc - i * w) → acc - n * w < w - 0.002 →
      catchUp body w fuel acc k = some ⟨acc - n * w, n, framesTrace body k n⟩ := by
  intro n
  induction n with
  | zero =>
    intro acc k fuel _ _ hlt
    have hg : ¬ (acc ≥ w - 0.002) := by
      simp only [Nat.cast_zero, zero_mul, sub_zero] at hlt
      exact not_le.mpr hlt
    cases fuel <;> simp [catchUp, hg, framesTrace]
  | succ n ih =>
    intro acc k fuel hfuel hge hlt
    have hg : acc ≥ w - 0.002 := by
      have := hge 0 (Nat.succ_pos n)
      simpa using this
    obtain ⟨f, rfl⟩ : ∃ f, fuel = f + 1 := ⟨fuel - 1, by omega⟩
    have hrec := ih (acc - w) (k + 1) f (by omega)
      (by
        intro i hi
        have := hge (i + 1) (by omega)
        push_cast at this
        linarith)
      (by
        push_cast at hlt
        linarith)
    simp only [catchUp, hg, if_true, hrec, framesTrace]
    congr 1
    congr 1
    push_cast
    ring

/-- With less fuel than passes to make, the catch-up loop runs out of fuel. -/
theorem catchUp_short (body : Nat → List Call) (w : ℚ) :
    ∀ (fuel : Nat) (acc : ℚ) (k : Nat),
      (∀ i : Nat, i ≤ fuel → w - 0.002 ≤ acc - i * w) →
      catchUp body w fuel acc k = none := by
  intro fuel
  induction fuel with
  | zero =>
    intro acc k hge
    have hg : acc ≥ w - 0.002 := by simpa using hge 0 (le_refl 0)
    simp [catchUp, hg]
  | succ f ih =>
    intro acc k hge
    have hg : acc ≥ w - 0.002 := by simpa using hge 0 (Nat.zero_le _)
    have hrec := ih (acc - w) (k + 1) (by
      intro i hi
      have := hge (i + 1) (by omega)
      push_cast at this
      linarith)
    simp [catchUp, hg, hrec]

theorem dueFrames_passes (w acc : ℚ) (hw : 0 < w) :
    (∀ i : Nat, i < dueFrames w acc → w - 0.002 ≤ acc - i * w) ∧
      acc - dueFrames w acc * w < w - 0.002 := by
  have hfl := Int.floor_le ((acc + 0.002) / w)
  have hlt := Int.lt_floor_add_one ((acc + 0.002) / w)
  constructor
  · intro i hi
    unfold dueFrames at hi
    have h1 : ((i : Int) + 1) ≤ ⌊(acc + 0.002) / w⌋ := by omega
    have h2 : ((i : ℚ) + 1) ≤ (acc + 0.002) / w := by
      have : (((i : Int) + 1 : Int) : ℚ) ≤ ((⌊(acc + 0.002) / w⌋ : Int) : ℚ) := by
        exact_mod_cast h1
      push_cast at this
      linarith
    have h3 := (le_div_iff₀ hw).mp h2
    linarith
  · have h1 : ((⌊(acc + 0.002) / w⌋ : Int) : ℚ) ≤ (dueFrames w acc : ℚ) := by
      have : ⌊(acc + 0.002) / w⌋ ≤ ((dueFrames w acc : Nat) : Int) := by
        unfold dueFrames
        exact Int.self_le_toNat _
      exact_mod_cast this
    have h2 : (acc + 0.002) / w < (dueFrames w acc : ℚ) + 1 := by linarith
    have h3 := (div_lt_iff₀ hw).mp h2
    linarith

/-- The catch-up loop terminates when the frame period is positive: `dueFrames` passes. -/
theorem catchUp_eq (body : Nat → List Call) (w acc : ℚ) (k fuel : Nat) (hw : 0 < w)
    (hfuel : dueFrames w acc ≤ fuel) :
    catchUp body w fuel acc k =
      some ⟨acc - dueFrames w acc * w, dueFrames w acc,
        framesTrace body k (dueFrames w acc)⟩ :=
  catchUp_of_passes body w _ acc k fuel hfuel (dueFrames_passes w acc hw).1
    (dueFrames_passes w acc hw).2

theorem dueFrames_lower (w acc : ℚ) (hw : 0 < w) (hacc : -0.002 ≤ acc) :
    -0.002 ≤ acc - dueFrames w acc * w := by
  have hnn : 0 ≤ (acc + 0.002) / w := div_nonneg (by linarith) hw.le
  have hfl := Int.floor_le ((acc + 0.002) / w)
  have h0 : 0 ≤ ⌊(acc + 0.002) / w⌋ := Int.floor_nonneg.mpr hnn
  have h1 : ((dueFrames w acc : Nat) : ℚ) = ((⌊(acc + 0.002) / w⌋ : Int) : ℚ) := by
    have : ((dueFrames w acc : Nat) : Int) = ⌊(acc + 0.002) / w⌋ := by
      unfold dueFrames
      exact Int.toNat_of_nonneg h0
    exact_mod_cast this
  have h2 : (dueFrames w acc : ℚ) ≤ (acc + 0.002) / w := by rw [h1]; exact hfl
  have h3 := (le_div_iff₀ hw).mp h2
  linarith

theorem wanted_pos (palTiming : Bool) : 0 < wanted palTiming := by
  cases palTiming <;> norm_num [wanted]

theorem handleEvent_sameTiming (st : Vars) (e : Event) :
    sameTiming (handleEvent st e).1 st := by
  cases e with
  | keyDown sym mod =>
    simp only [handleEvent, sameTiming]
    split_ifs <;> simp
  | keyUp sym mod =>
    simp only [handleEvent, sameTiming]
    split_ifs <;> simp
  | quit => simp [handleEvent, sameTiming]
  | other => simp [handleEvent, sameTiming]

theorem pollEvents_sameTiming (es : List Event) :
    ∀ st : Vars, sameTiming (pollEvents st es).1 st := by
  induction es with
  | nil => intro st; simp [pollEvents, sameTiming]
  | cons e es ih =>
    intro st
    have h1 := ih (handleEvent st e).1
    have h2 := handleEvent_sameTiming st e
    simp only [pollEvents]
    unfold sameTiming at *
    refine ⟨?_, ?_, ?_, ?_, ?_, ?_⟩
    · exact h1.1.trans h2.1
    · exact h1.2.1.trans h2.2.1
    · exact h1.2.2.1.trans h2.2.2.1
    · exact h1.2.2.2.1.trans h2.2.2.2.1
    · exact h1.2.2.2.2.1.trans h2.2.2.2.2.1
    · exact h1.2.2.2.2.2.trans h2.2.2.2.2.2

theorem mainLoopBody_eq (fuel : Nat) (st : Vars) (h : Host) (hw : 0 < st.wanted)
    (hfuel : dueFrames st.wanted (accAfterAdd st h) ≤ fuel) :
    mainLoopBody fuel st h = some (iterTotal st h) := by
  obtain ⟨_, h2, h3, h4, h5, _⟩ := pollEvents_sameTiming h.events st
  have hacc : (pollEvents st h.events).1.timeAdder +
      elapsedSeconds (pollEvents st h.events).1.countFreq
        (pollEvents st h.events).1.lastCount h.curCount = accAfterAdd st h := by
    rw [h2, h3, h4]; rfl
  simp only [mainLoopBody, clockAdvance, hacc, h5]
  rw [catchUp_eq _ _ _ _ _ hw hfuel]
  simp only [iterTotal, h5]

theorem iterTotal_wanted (st : Vars) (h : Host) :
    (iterTotal st h).1.wanted = st.wanted ∧
      (iterTotal st h).1.wantedSamples = st.wantedSamples ∧
      (iterTotal st h).1.loaded = st.loaded ∧
      (iterTotal st h).1.countFreq = st.countFreq := by
  obtain ⟨h1, h2, _, _, h5, h6⟩ := pollEvents_sameTiming h.events st
  exact ⟨h5, h6, h1, h2⟩

theorem runLoop_eq (hosts : List Host) :
    ∀ (st : Vars) (fuel : Nat), 0 < st.wanted → runFuel st hosts ≤ fuel →
      runLoop fuel st hosts = some (runTotal st hosts) := by
  induction hosts with
  | nil => intro st fuel _ _; simp [runLoop, runTotal]
  | cons h hs ih =>
    intro st fuel hw hfuel
    simp only [runFuel] at hfuel
    have h1 := mainLoopBody_eq fuel st h hw (le_trans (le_max_left _ _) hfuel)
    have hw2 : 0 < (iterTotal st h).1.wanted := by rw [(iterTotal_wanted st h).1]; exact hw
    have h2 := ih (iterTotal st h).1 fuel hw2 (le_trans (le_max_right _ _) hfuel)
    simp only [runLoop, runTotal, h1, h2]
    split_ifs <;> rfl

theorem iterTotal_timeAdder (st : Vars) (h : Host) :
    (iterTotal st h).1.timeAdder =
      accAfterAdd st h - dueFrames st.wanted (accAfterAdd st h) * st.wanted := rfl

theorem iterTotal_timeAdder_lt (st : Vars) (h : Host) (hw : 0 < st.wanted) :
    (iterTotal st h).1.timeAdder < st.wanted - 0.002 := by
  rw [iterTotal_timeAdder]
  exact (dueFrames_passes st.wanted (accAfterAdd st h) hw).2

theorem runTotal_wanted (hosts : List Host) :
    ∀ st : Vars, (runTotal st hosts).1.wanted = st.wanted ∧
      (runTotal st hosts).1.wantedSamples = st.wantedSamples := by
  induction hosts with
  | nil => intro st; simp [runTotal]
  | cons h hs ih =>
    intro st
    simp only [runTotal]
    split_ifs
    · have h1 := ih (iterTotal st h).1
      have h2 := iterTotal_wanted st h
      exact ⟨h1.1.trans h2.1, h1.2.trans h2.2.1⟩
    · exact ⟨rfl, rfl⟩

theorem runTotal_timeAdder_lt (hosts : List Host) :
    ∀ st : Vars, 0 < st.wanted → st.timeAdder < st.wanted - 0.002 →
      (runTotal st hosts).1.timeAdder < st.wanted - 0.002 := by
  induction hosts with
  | nil => intro st _ h; simpa [runTotal] using h
  | cons h hs ih =>
    intro st hw hlt
    simp only [runTotal]
    split_ifs
    · have h2 := (iterTotal_wanted st h).1
      have h1 := ih (iterTotal st h).1 (by rw [h2]; exact hw)
        (by rw [h2]; exact iterTotal_timeAdder_lt st h hw)
      rw [h2] at h1
      exact h1
    · exact hlt

theorem mainLoopBody_wanted (fuel : Nat) (st : Vars) (h : Host) (r : Vars × List Call)
    (hr : mainLoopBody fuel st h = some r) :
    r.1.wanted = st.wanted ∧ r.1.wantedSamples = st.wantedSamples := by
  obtain ⟨_, _, _, _, h5, h6⟩ := pollEvents_sameTiming h.events st
  unfold mainLoopBody at hr
  simp only at hr
  split at hr
  · exact absurd hr (by simp)
  · simp only [Option.some.injEq] at hr
    subst hr
    exact ⟨h5, h6⟩

theorem runLoop_wanted (fuel : Nat) (hosts : List Host) :
    ∀ (st : Vars) (r : Vars × List Call), runLoop fuel st hosts = some r →
      r.1.wanted = st.wanted ∧ r.1.wantedSamples = st.wantedSamples := by
  induction hosts with
  | nil =>
    intro st r hr
    simp only [runLoop, Option.some.injEq] at hr
    subst hr
    exact ⟨rfl, rfl⟩
  | cons h hs ih =>
    intro st r hr
    simp only [runLoop] at hr
    split_ifs at hr
    · split at hr
      · exact absurd hr (by simp)
      · rename_i r1 h1
        split at hr
        · exact absurd hr (by simp)
        · rename_i r2 h2
          simp only [Option.some.injEq] at hr
          subst hr
          have a := mainLoopBody_wanted fuel st h r1 h1
          have b := ih r1.1 r2 h2
          exact ⟨b.1.trans a.1, b.2.trans a.2⟩
    · simp only [Option.some.injEq] at hr
      subst hr
      exact ⟨rfl, rfl⟩

theorem lor_eq_zero (a b : Nat) : a ||| b = 0 ↔ a = 0 ∧ b = 0 := by
  constructor
  · intro h
    have key : ∀ i, a.testBit i = false ∧ b.testBit i = false := by
      intro i
      have := congrArg (fun n => n.testBit i) h
      simpa [Nat.testBit_or] using this
    exact ⟨Nat.eq_of_testBit_eq (fun i => by simp [(key i).1]),
      Nat.eq_of_testBit_eq (fun i => by simp [(key i).2])⟩
  · rintro ⟨rfl, rfl⟩
    rfl

theorem modifierHeld_iff (mod : Nat) :
    modifierHeld mod ↔ mod &&& (KMOD_ALT ||| KMOD_CTRL ||| KMOD_GUI) ≠ 0 := by
  unfold modifierHeld
  simp only [ne_eq, Nat.and_or_distrib_left, lor_eq_zero]
  tauto

theorem handleInput_mapped (pressed : Bool) :
    ∀ (i : Nat) (k : Int), mappedKeys[i]? = some k →
      handleInput k pressed = [Call.snes_setButtonState 1 (i : Int) pressed] := by
  intro i k h
  have hi : i < 12 := by
    by_contra hge
    have : mappedKeys[i]? = none := List.getElem?_eq_none (by simp [mappedKeys]; omega)
    simp [this] at h
  interval_cases i <;> simp [mappedKeys] at h <;> subst h <;> cases pressed <;> decide

theorem handleInput_unmapped (k : Int) (pressed : Bool) (hk : k ∉ mappedKeys) :
    handleInput k pressed = [] := by
  simp only [mappedKeys, List.mem_cons, List.mem_singleton, not_or, List.not_mem_nil,
    or_false] at hk
  obtain ⟨h0, h1, h2, h3, h4, h5, h6, h7, h8, h9, h10, h11⟩ := hk
  simp [handleInput, h0, h1, h2, h3, h4, h5, h6, h7, h8, h9, h10, h11]

theorem handleInput_cases (k : Int) (pressed : Bool) :
    handleInput k pressed = [] ∨
      ∃ b : Int, handleInput k pressed = [Call.snes_setButtonState 1 b pressed] := by
  by_cases hk : k ∈ mappedKeys
  · obtain ⟨i, hi⟩ := List.mem_iff_getElem?.mp hk
    exact Or.inr ⟨(i : Int), handleInput_mapped pressed i k hi⟩
  · exact Or.inl (handleInput_unmapped k pressed hk)

/-- A key press with ctrl, alt or meta held makes no button call. -/
theorem keyDown_guarded (st : Vars) (sym : Int) (mod : Nat) (hmod : modifierHeld mod) :
    ∀ c ∈ (handleEvent st (Event.keyDown sym mod)).2, isButtonCall c = false := by
  intro c hc
  have hne := (modifierHeld_iff mod).mp hmod
  simp only [handleEvent, hne, if_false] at hc
  split_ifs at hc <;> simp at hc <;> subst hc <;> rfl

theorem handleEvent_isEventCall (st : Vars) (e : Event) :
    ∀ c ∈ (handleEvent st e).2, isEventCall c = true := by
  intro c hc
  cases e with
  | keyDown sym mod =>
    simp only [handleEvent] at hc
    rcases handleInput_cases sym true with h0 | ⟨b, hb⟩
    · rw [h0] at hc
      split_ifs at hc <;> simp at hc <;> subst hc <;> rfl
    · rw [hb] at hc
      split_ifs at hc <;> simp at hc <;> first
        | (subst hc; rfl)
        | (rcases hc with hc | hc <;> subst hc <;> rfl)
  | keyUp sym mod =>
    simp only [handleEvent] at hc
    rcases handleInput_cases sym false with h0 | ⟨b, hb⟩
    · rw [h0] at hc
      simp at hc
    · rw [hb] at hc
      simp at hc
      subst hc
      rfl
  | quit => simp [handleEvent] at hc
  | other => simp [handleEvent] at hc

theorem pollEvents_calls (es : List Event) :
    ∀ (st : Vars), ∀ c ∈ (pollEvents st es).2, c = Call.SDL_PollEvent ∨ isEventCall c = true := by
  induction es with
  | nil =>
    intro st c hc
    simp [pollEvents] at hc
    exact Or.inl hc
  | cons e es ih =>
    intro st c hc
    simp only [pollEvents, List.mem_cons, List.mem_append, List.cons_append] at hc
    rcases hc with hc | hc | hc
    · exact Or.inl hc
    · exact Or.inr (handleEvent_isEventCall st e c hc)
    · exact ih _ c hc

theorem pollEvents_noFrame (es : List Event) (st : Vars) :
    ∀ c ∈ (pollEvents st es).2, isFrameCall c = false := by
  intro c hc
  rcases pollEvents_calls es st c hc with h | h
  · subst h; rfl
  · cases c <;> simp [isEventCall] at h <;> rfl

theorem handleEvent_count_poll (st : Vars) (e : Event) :
    (handleEvent st e).2.count Call.SDL_PollEvent = 0 := by
  rw [List.count_eq_zero]
  intro hmem
  have := handleEvent_isEventCall st e _ hmem
  simp [isEventCall] at this

theorem pollEvents_count_poll (es : List Event) :
    ∀ st : Vars, (pollEvents st es).2.count Call.SDL_PollEvent = es.length + 1 := by
  induction es with
  | nil => intro st; simp [pollEvents]
  | cons e es ih =>
    intro st
    simp only [pollEvents, List.cons_append, List.count_cons_self, List.count_append,
      handleEvent_count_poll, ih, List.length_cons]
    omega

theorem framesTrace_nil (body : Nat → List Call) (hb : ∀ k, body k = []) :
    ∀ (n k : Nat), framesTrace body k n = [] := by
  intro n
  induction n with
  | zero => intro k; rfl
  | succ n ih => intro k; simp [framesTrace, hb, ih]

theorem framesTrace_count (body : Nat → List Call) (c : Call) (m : Nat)
    (hb : ∀ k, (body k).count c = m) :
    ∀ (n k : Nat), (framesTrace body k n).count c = n * m := by
  intro n
  induction n with
  | zero => intro k; simp [framesTrace]
  | succ n ih =>
    intro k
    simp only [framesTrace, List.count_append, hb, ih]
    ring

theorem frameBody_closed (loaded paused turbo : Bool) (ws : Int) (q : Nat) (ok : Bool)
    (hg : (!loaded || paused) = true) : frameBody loaded paused turbo ws q ok = [] := by
  cases loaded <;> cases paused <;> simp_all [frameBody]

/-- With the gate closed after the events, an iteration makes no pass-body call. -/
theorem iterTotal_closed (st : Vars) (h : Host)
    (hg : gateClosed (pollEvents st h.events).1 = true) :
    (iterTotal st h).2 =
      (pollEvents st h.events).2 ++ [Call.SDL_GetPerformanceCounter] ++ present := by
  unfold gateClosed at hg
  simp only [iterTotal]
  rw [framesTrace_nil _ (fun k => frameBody_closed _ _ _ _ _ _ hg)]
  simp

theorem iterTotal_closed_noFrame (st : Vars) (h : Host)
    (hg : gateClosed (pollEvents st h.events).1 = true) :
    ∀ c ∈ (iterTotal st h).2, isFrameCall c = false := by
  intro c hc
  rw [iterTotal_closed st h hg] at hc
  simp only [List.mem_append, List.mem_singleton] at hc
  rcases hc with (hc | hc) | hc
  · exact pollEvents_noFrame _ _ c hc
  · subst hc; rfl
  · simp [present] at hc
    rcases hc with hc | hc | hc <;> subst hc <;> rfl

theorem handleEvent_paused (st : Vars) (e : Event) (he : isPausePress e = false) :
    (handleEvent st e).1.paused = st.paused := by
  cases e with
  | keyDown sym mod =>
    have hs : sym ≠ SDLK_p := by simpa [isPausePress] using he
    simp only [handleEvent]
    split_ifs <;> simp_all
  | keyUp sym mod =>
    simp only [handleEvent]
    split_ifs <;> simp
  | quit => simp [handleEvent]
  | other => simp [handleEvent]

theorem pollEvents_paused (es : List Event) :
    ∀ st : Vars, (∀ e ∈ es, isPausePress e = false) →
      (pollEvents st es).1.paused = st.paused := by
  induction es with
  | nil => intro st _; simp [pollEvents]
  | cons e es ih =>
    intro st hes
    simp only [pollEvents]
    rw [ih _ (fun e1 h1 => hes e1 (List.mem_cons_of_mem _ h1)),
      handleEvent_paused st e (hes e (List.mem_cons_self _ _))]

theorem idleOrPaused_gate (st : Vars) (h : Host) (hs : List Host)
    (hi : idleOrPaused st (h :: hs)) :
    gateClosed (pollEvents st h.events).1 = true ∧ idleOrPaused (iterTotal st h).1 hs := by
  obtain ⟨hl, _, _, _, _, _⟩ := pollEvents_sameTiming h.events st
  rcases hi with hi | ⟨hp, hev⟩
  · refine ⟨by simp [gateClosed, hl, hi], Or.inl ?_⟩
    rw [(iterTotal_wanted st h).2.2.1]
    exact hi
  · have hp2 := pollEvents_paused h.events st (hev h (List.mem_cons_self _ _))
    refine ⟨by simp [gateClosed, hp2, hp], Or.inr ⟨?_, ?_⟩⟩
    · show (pollEvents st h.events).1.paused = true
      rw [hp2]
      exact hp
    · intro h1 hh1
      exact hev h1 (List.mem_cons_of_mem _ hh1)

theorem runTotal_idle_noFrame (hosts : List Host) :
    ∀ st : Vars, idleOrPaused st hosts →
      ∀ c ∈ (runTotal st hosts).2, isFrameCall c = false := by
  induction hosts with
  | nil => intro st _ c hc; simp [runTotal] at hc
  | cons h hs ih =>
    intro st hi c hc
    obtain ⟨hg, hnext⟩ := idleOrPaused_gate st h hs hi
    simp only [runTotal] at hc
    split_ifs at hc
    · simp only [List.mem_append] at hc
      rcases hc with hc | hc
      · exact iterTotal_closed_noFrame st h hg c hc
      · exact ih _ hnext c hc
    · simp at hc

theorem elapsedSeconds_nonneg (countFreq lastCount curCount : Nat) :
    0 ≤ elapsedSeconds countFreq lastCount curCount := by
  unfold elapsedSeconds
  apply div_nonneg
  · have : (0 : Int) ≤ ((curCount : Int) - (lastCount : Int)) % 18446744073709551616 :=
      Int.emod_nonneg _ (by norm_num)
    exact_mod_cast this
  · exact Nat.cast_nonneg _

theorem iterTotal_noEvents (st : Vars) (h : Host) (he : h.events = []) :
    (iterTotal st h).1 =
        { st with lastCount := h.curCount,
                  timeAdder := accAfterAdd st h -
                    dueFrames st.wanted (accAfterAdd st h) * st.wanted } ∧
      (iterTotal st h).2 =
        [Call.SDL_PollEvent, Call.SDL_GetPerformanceCounter] ++
          framesTrace (fun k => frameBody st.loaded st.paused st.turbo st.wantedSamples
            (h.queued k) (h.lockOk k)) 0 (dueFrames st.wanted (accAfterAdd st h)) ++
          present := by
  simp [iterTotal, he, pollEvents]

theorem runTotal_steady_timeAdder (hosts : List Host) :
    ∀ st : Vars, st.running = true → (∀ h ∈ hosts, h.events = []) → 0 < st.wanted →
      (runTotal st hosts).1.timeAdder =
          st.timeAdder + totalSeconds st.countFreq st.lastCount hosts -
            totalFrames st hosts * st.wanted ∧
        (-0.002 ≤ st.timeAdder → -0.002 ≤ (runTotal st hosts).1.timeAdder) := by
  induction hosts with
  | nil => intro st _ _ _; simp [runTotal, totalSeconds, totalFrames]
  | cons h hs ih =>
    intro st hrun hev hw
    obtain ⟨h1, _⟩ := iterTotal_noEvents st h (hev h (List.mem_cons_self _ _))
    have hrec := ih (iterTotal st h).1 (by rw [h1]; exact hrun)
      (fun h2 hh2 => hev h2 (List.mem_cons_of_mem _ hh2)) (by rw [h1]; exact hw)
    simp only [runTotal, totalSeconds, totalFrames, hrun, if_true]
    have e1 : (iterTotal st h).1.timeAdder =
        accAfterAdd st h - dueFrames st.wanted (accAfterAdd st h) * st.wanted := by
      rw [h1]
    have e2 : (iterTotal st h).1.countFreq = st.countFreq := by rw [h1]
    have e3 : (iterTotal st h).1.lastCount = h.curCount := by rw [h1]
    have e4 : (iterTotal st h).1.wanted = st.wanted := by rw [h1]
    rw [e1, e2, e3, e4] at hrec
    constructor
    · rw [hrec.1]
      unfold accAfterAdd
      push_cast
      ring
    · intro hlow
      apply hrec.2
      apply dueFrames_lower _ _ hw
      unfold accAfterAdd
      have := elapsedSeconds_nonneg st.countFreq st.lastCount h.curCount
      linarith

theorem runTotal_steady_count (c : Call) (ws : Int) (hc1 : c ≠ Call.SDL_PollEvent)
    (hc2 : c ≠ Call.SDL_GetPerformanceCounter) (hc3 : c ∉ present) (hosts : List Host) :
    ∀ st : Vars, steady st → st.wantedSamples = ws → (∀ h ∈ hosts, h.events = []) →
      (∀ h ∈ hosts, ∀ k : Nat,
        (frameBody true false false ws (h.queued k) (h.lockOk k)).count c = 1) →
      (runTotal st hosts).2.count c = totalFrames st hosts := by
  induction hosts with
  | nil => intro st _ _ _ _; simp [runTotal, totalFrames]
  | cons h hs ih =>
    intro st hst hws hev hbody
    obtain ⟨hl, hr, hp, ht⟩ := hst
    obtain ⟨h1, h2⟩ := iterTotal_noEvents st h (hev h (List.mem_cons_self _ _))
    have hrec := ih (iterTotal st h).1 (by rw [h1]; exact ⟨hl, hr, hp, ht⟩)
      (by rw [h1]; exact hws)
      (fun h3 hh3 => hev h3 (List.mem_cons_of_mem _ hh3))
      (fun h3 hh3 => hbody h3 (List.mem_cons_of_mem _ hh3))
    simp only [runTotal, totalFrames, hr, if_true, List.count_append, hrec, h2]
    rw [framesTrace_count _ c 1 (fun k => by
      rw [hl, hp, ht, hws]
      exact hbody h (List.mem_cons_self _ _) k)]
    rw [List.count_eq_zero.mpr hc3, List.count_cons_of_ne hc1,
      List.count_cons_of_ne hc2]
    simp

theorem frameBody_count_runFrame (ws : Int) (q : Nat) (ok : Bool) :
    (frameBody true false false ws q ok).count Call.snes_runFrame = 1 := by
  cases ok <;> simp [frameBody, playAudio, renderScreen, List.count_cons, List.count_append] <;>
    split_ifs <;> simp

theorem frameBody_count_setSamples (ws : Int) (q : Nat) (ok : Bool) :
    (frameBody true false false ws q ok).count (Call.snes_setSamples ws) = 1 := by
  cases ok <;> simp [frameBody, playAudio, renderScreen, List.count_cons, List.count_append] <;>
    split_ifs <;> simp

theorem frameBody_count_lock (ws : Int) (q : Nat) (ok : Bool) :
    (frameBody true false false ws q ok).count Call.SDL_LockTexture = 1 := by
  cases ok <;> simp [frameBody, playAudio, renderScreen, List.count_cons, List.count_append] <;>
    split_ifs <;> simp

theorem frameBody_count_queue (palTiming : Bool) (q : Nat) (ok : Bool)
    (hq : (q : Int) ≤ wantedSamples palTiming * 4 * 6) :
    (frameBody true false false (wantedSamples palTiming) q ok).count
      (Call.SDL_QueueAudio (wantedSamples palTiming * 4)) = 1 := by
  have hmod : (wantedSamples palTiming * 4 * 6) % 4294967296 =
      wantedSamples palTiming * 4 * 6 := by
    cases palTiming <;> simp [wantedSamples]
  cases ok <;>
    simp [frameBody, playAudio, renderScreen, List.count_cons, List.count_append, hmod, hq]

theorem frameBody_count_setPixels (ws : Int) (q : Nat) :
    (frameBody true false false ws q true).count Call.snes_setPixels = 1 := by
  simp [frameBody, playAudio, renderScreen, List.count_cons, List.count_append]
  split_ifs <;> simp

/-- Over one second of reported time, a steady NTSC run from accumulator 0 has exactly 60
due frames. -/
theorem totalFrames_one_second (countFreq lastCount : Nat) (hosts : List Host)
    (hev : ∀ h ∈ hosts, h.events = [])
    (hsec : totalSeconds countFreq lastCount hosts = 1) :
    totalFrames (initVars true false countFreq lastCount) hosts = 60 := by
  have hw : (initVars true false countFreq lastCount).wanted = 1 / 60 := by
    norm_num [initVars, wanted]
  have hpos : 0 < (initVars true false countFreq lastCount).wanted := by rw [hw]; norm_num
  have h0 : (initVars true false countFreq lastCount).timeAdder = 0 := by
    norm_num [initVars]
  obtain ⟨heq, hlow⟩ := runTotal_steady_timeAdder hosts
    (initVars true false countFreq lastCount) rfl hev hpos
  have hup := runTotal_timeAdder_lt hosts (initVars true false countFreq lastCount) hpos
    (by rw [h0, hw]; norm_num)
  have hlow2 := hlow (by rw [h0]; norm_num)
  have hsec2 : totalSeconds (initVars true false countFreq lastCount).countFreq
      (initVars true false countFreq lastCount).lastCount hosts = 1 := hsec
  rw [heq, hsec2, h0, hw] at hup hlow2
  have hle : (totalFrames (initVars true false countFreq lastCount) hosts : ℚ) < 61 := by
    norm_num at hlow2
    linarith
  have hge : (59 : ℚ) < (totalFrames (initVars true false countFreq lastCount) hosts : ℚ) := by
    norm_num at hup
    linarith
  have hle2 : totalFrames (initVars true false countFreq lastCount) hosts < 61 := by
    exact_mod_cast hle
  have hge2 : 59 < totalFrames (initVars true false countFreq lastCount) hosts := by
    exact_mod_cast hge
  omega

/-- The time reported over `n` iterations in which the counter goes up by one tick each,
without wrapping. -/
theorem totalSeconds_ticks (countFreq : Nat) (n : Nat) :
    ∀ (first : Nat), first + n < 18446744073709551616 →
      totalSeconds countFreq first ((List.range' (first + 1) n).map quietHost) =
        (n : ℚ) / (countFreq : ℚ) := by
  induction n with
  | zero => intro first _; simp [totalSeconds]
  | succ n ih =>
    intro first hlt
    have hrec := ih (first + 1) (by omega)
    simp only [List.range'_succ, List.map_cons, totalSeconds]
    have hq : (quietHost (first + 1)).curCount = first + 1 := rfl
    rw [hq, hrec]
    have he : elapsedSeconds countFreq first (first + 1) = 1 / (countFreq : ℚ) := by
      unfold elapsedSeconds
      have : (((first + 1 : Nat) : Int) - (first : Int)) % 18446744073709551616 = 1 := by
        have : ((first + 1 : Nat) : Int) - (first : Int) = 1 := by push_cast; ring
        rw [this]; rfl
      rw [this]
      simp
    rw [he]
    push_cast
    ring

/-! ## The claims -/

/-- C2. One due frame while a ROM is loaded and the loop is not paused: the calls are one
`snes_runFrame` with turbo off and two with turbo on, then the calls of one `playAudio`,
then the calls of one `renderScreen`; neither of the latter two steps the machine. -/
theorem frame_steps_then_audio_then_video (turbo : Bool) (wantedSamples : Int)
    (queued : Nat) (lockOk : Bool) :
    frameBody true false turbo wantedSamples queued lockOk =
      List.replicate (if turbo then 2 else 1) Call.snes_runFrame ++
        (playAudio queued wantedSamples ++ renderScreen lockOk) ∧
    (frameBody true false turbo wantedSamples queued lockOk).count Call.snes_runFrame =
      (if turbo then 2 else 1) ∧
    Call.snes_runFrame ∉ playAudio queued wantedSamples ∧
    Call.snes_runFrame ∉ renderScreen lockOk ∧
    (playAudio queued wantedSamples).count (Call.snes_setSamples wantedSamples) = 1 ∧
    (renderScreen lockOk).count Call.SDL_LockTexture = 1 := by
  refine ⟨?_, ?_, ?_, ?_, ?_, ?_⟩
  · cases turbo <;> simp [frameBody, List.replicate]
  · cases turbo <;> cases lockOk <;>
      simp [frameBody, playAudio, renderScreen, List.count_cons, List.count_append] <;>
      split_ifs <;> simp
  · simp only [playAudio]
    split_ifs <;> simp
  · cases lockOk <;> simp [renderScreen]
  · simp only [playAudio]
    split_ifs <;> simp [List.count_cons]
  · cases lockOk <;> simp [renderScreen, List.count_cons]

/-- C3. Audio backpressure. For both values of samples per frame and every queued size
`queued`, `playAudio` asks the machine for exactly that many samples, reads the queued
size, and then queues `wantedSamples * 4` bytes when `queued ≤ wantedSamples * 4 * 6` and
queues nothing when `queued` is larger. -/
theorem audio_backpressure (palTiming : Bool) (queued : Nat) :
    ((queued : Int) ≤ wantedSamples palTiming * 4 * 6 →
      playAudio queued (wantedSamples palTiming) =
        [Call.snes_setSamples (wantedSamples palTiming), Call.SDL_GetQueuedAudioSize,
          Call.SDL_QueueAudio (wantedSamples palTiming * 4)]) ∧
    (wantedSamples palTiming * 4 * 6 < (queued : Int) →
      playAudio queued (wantedSamples palTiming) =
        [Call.snes_setSamples (wantedSamples palTiming), Call.SDL_GetQueuedAudioSize]) ∧
    (∀ len : Int, Call.SDL_QueueAudio len ∈ playAudio queued (wantedSamples palTiming) ↔
      (len = wantedSamples palTiming * 4 ∧
        (queued : Int) ≤ wantedSamples palTiming * 4 * 6)) ∧
    (∀ n : Int, Call.snes_setSamples n ∈ playAudio queued (wantedSamples palTiming) ↔
      n = wantedSamples palTiming) := by
  have hmod : (wantedSamples palTiming * 4 * 6) % 4294967296 =
      wantedSamples palTiming * 4 * 6 := by
    cases palTiming <;> simp [wantedSamples]
  refine ⟨?_, ?_, ?_, ?_⟩
  · intro h
    simp [playAudio, hmod, h]
  · intro h
    simp [playAudio, hmod, not_le.mpr h]
  · intro len
    simp only [playAudio, hmod]
    split_ifs with h <;> simp [h]
  · intro n
    simp only [playAudio, hmod]
    split_ifs with h <;> simp

/-- A concrete call for C3: NTSC, the queue exactly at the bound of 17640 bytes. -/
theorem audio_backpressure_witness :
    ((17640 : Nat) : Int) ≤ wantedSamples false * 4 * 6 ∧
      playAudio 17640 (wantedSamples false) =
        [Call.snes_setSamples (wantedSamples false), Call.SDL_GetQueuedAudioSize,
          Call.SDL_QueueAudio (wantedSamples false * 4)] :=
  ⟨by decide, (audio_backpressure false 17640).1 (by decide)⟩

/-- C7, as stated, fails on a key release: releasing `z` while left ctrl (0x0040) is held
still sets button 0 of player 1. -/
theorem modifier_guard_release_counterexample :
    modifierHeld 0x0040 ∧
      (handleEvent (initVars true false 1 0) (Event.keyUp SDLK_z 0x0040)).2 =
        [Call.snes_setButtonState 1 0 false] := by
  decide

/-- C7, amended. For every key press and every key code, if ctrl, alt or meta is held in
the modifier state of the event, no `snes_setButtonState` call is made; a key release makes
exactly the calls of `handleInput(keyCode, false)`, whatever the modifier state. -/
theorem modifier_guard_on_press (st : Vars) (sym : Int) (mod : Nat) :
    (modifierHeld mod →
      ∀ c ∈ (handleEvent st (Event.keyDown sym mod)).2, isButtonCall c = false) ∧
    (handleEvent st (Event.keyUp sym mod)).2 = handleInput sym false := by
  constructor
  · intro hmod c hc
    exact keyDown_guarded st sym mod hmod c hc
  · simp [handleEvent]

/-- A concrete key press for C7: `z` with left ctrl held makes no call at all. -/
theorem modifier_guard_on_press_witness :
    modifierHeld 0x0040 ∧
      ∀ c ∈ (handleEvent (initVars true false 1 0) (Event.keyDown SDLK_z 0x0040)).2,
        isButtonCall c = false :=
  ⟨by decide,
    (modifier_guard_on_press (initVars true false 1 0) SDLK_z 0x0040).1 (by decide)⟩

/-- C8, as stated, fails for Return: pressing it with no modifier held sets button 3
(Start) of player 1. -/
theorem reserved_return_counterexample :
    (handleEvent (initVars true false 1 0) (Event.keyDown SDLK_RETURN 0)).2 =
      [Call.snes_setButtonState 1 3 true] := by
  decide

/-- C8, amended. A key event for P, T, R or E, pressed or released and with any modifier
state, makes no `snes_setButtonState` call. Return is the Start key: its press makes no
such call when ctrl, alt or meta is held (with alt held it toggles fullscreen and does
nothing else), and otherwise the press, and always the release, sets button 3 of
player 1. -/
theorem reserved_keys_not_forwarded (st : Vars) (mod : Nat) :
    (∀ sym : Int, sym = SDLK_p ∨ sym = SDLK_t ∨ sym = SDLK_r ∨ sym = SDLK_e →
      (∀ c ∈ (handleEvent st (Event.keyDown sym mod)).2, isButtonCall c = false) ∧
      (∀ c ∈ (handleEvent st (Event.keyUp sym mod)).2, isButtonCall c = false)) ∧
    (modifierHeld mod →
      ∀ c ∈ (handleEvent st (Event.keyDown SDLK_RETURN mod)).2, isButtonCall c = false) ∧
    (mod &&& KMOD_ALT ≠ 0 →
      (handleEvent st (Event.keyDown SDLK_RETURN mod)).2 =
        [Call.SDL_SetWindowFullscreen
          (st.fullscreenFlags ^^^ SDL_WINDOW_FULLSCREEN_DESKTOP)]) ∧
    (¬ modifierHeld mod →
      (handleEvent st (Event.keyDown SDLK_RETURN mod)).2 =
        [Call.snes_setButtonState 1 3 true]) ∧
    (handleEvent st (Event.keyUp SDLK_RETURN mod)).2 =
      [Call.snes_setButtonState 1 3 false] := by
  refine ⟨?_, ?_, ?_, ?_, ?_⟩
  · intro sym hsym
    rcases hsym with h | h | h | h <;> subst h <;> constructor <;> intro c hc <;>
      simp [handleEvent, handleInput, SDLK_p, SDLK_t, SDLK_r, SDLK_e, SDLK_z, SDLK_a,
        SDLK_RSHIFT, SDLK_RETURN, SDLK_UP, SDLK_DOWN, SDLK_LEFT, SDLK_RIGHT, SDLK_x, SDLK_s,
        SDLK_d, SDLK_c] at hc <;>
      (subst hc; rfl)
  · intro hmod
    exact keyDown_guarded st SDLK_RETURN mod hmod
  · intro halt
    have hne := (modifierHeld_iff mod).mp (Or.inr (Or.inl halt))
    simp [handleEvent, hne, halt, SDLK_p, SDLK_t, SDLK_r, SDLK_e, SDLK_RETURN]
  · intro hmod
    have h0 : mod &&& (KMOD_ALT ||| KMOD_CTRL ||| KMOD_GUI) = 0 := by
      by_contra hne
      exact hmod ((modifierHeld_iff mod).mpr hne)
    have halt : mod &&& KMOD_ALT = 0 := by
      by_contra hne
      exact hmod (Or.inr (Or.inl hne))
    simp [handleEvent, handleInput, h0, halt, SDLK_p, SDLK_t, SDLK_r, SDLK_e, SDLK_z,
      SDLK_a, SDLK_RSHIFT, SDLK_RETURN]
  · simp [handleEvent, handleInput, SDLK_z, SDLK_a, SDLK_RSHIFT, SDLK_RETURN]

/-- A concrete key for C8: pressing P with no modifier held makes no button call. -/
theorem reserved_keys_not_forwarded_witness :
    (SDLK_p = SDLK_p ∨ SDLK_p = SDLK_t ∨ SDLK_p = SDLK_r ∨ SDLK_p = SDLK_e) ∧
      ∀ c ∈ (handleEvent (initVars true false 1 0) (Event.keyDown SDLK_p 0)).2,
        isButtonCall c = false :=
  ⟨Or.inl rfl,
    ((reserved_keys_not_forwarded (initVars true false 1 0) 0).1 SDLK_p (Or.inl rfl)).1⟩

/-- C9. Input routing table. `handleInput` is a function of the key code and the pressed
flag alone; the twelve mapped key codes (z, a, right shift, return, up, down, left, right,
x, s, d, c) are pairwise distinct, the key at position `i` makes exactly the one call
`snes_setButtonState(1, i, pressed)`, and every other key code makes no call. -/
theorem input_routing_table :
    mappedKeys.length = 12 ∧ mappedKeys.Nodup ∧
    (∀ (i : Nat) (k : Int) (pressed : Bool), mappedKeys[i]? = some k →
      handleInput k pressed = [Call.snes_setButtonState 1 (i : Int) pressed]) ∧
    (∀ (k : Int) (pressed : Bool), k ∉ mappedKeys → handleInput k pressed = []) := by
  refine ⟨rfl, by decide, ?_, ?_⟩
  · intro i k pressed h
    exact handleInput_mapped pressed i k h
  · intro k pressed hk
    exact handleInput_unmapped k pressed hk

/-- A concrete key for C9: position 2 of the table is right shift, button 2 (Select). -/
theorem input_routing_table_witness :
    mappedKeys[2]? = some SDLK_RSHIFT ∧
      handleInput SDLK_RSHIFT true = [Call.snes_setButtonState 1 ((2 : Nat) : Int) true] :=
  ⟨by decide, input_routing_table.2.2.1 2 SDLK_RSHIFT true (by decide)⟩

end LakeSnes
